import Mathlib

/-!
Verification model of `src/hf_downloader.py`, a resumable bulk downloader.

The Python source is shallowly embedded below:

* `fnmatchB`, `matchPatterns` model `fnmatch.fnmatch` and `_match_patterns`
  (lines 53-62 of the source);
* `FS`, `RunState`, `LoopSt` model the filesystem and the tqdm progress
  counters threaded through `download_repo`;
* `negotiate` models the range-negotiation logic (the skip check at
  line 140 together with the range-header setup at lines 163-177);
* `runLoop` models the retry `while` loop (lines 180-234), driven by a
  script of per-attempt outcomes `AttemptResult`;
* `processFile` models one iteration of the per-file `for` loop
  (lines 125-234), including the HEAD size probe (lines 145-160);
* `download_repo` models the whole function (lines 77-238), with the
  external metadata provider and the transport abstracted into `Env`.

File contents are lists of bytes (`List Nat`); sizes are `Nat`; the
"maybe unknown" remote size is `Option Nat`, exactly as the source keeps
`None`.  Progress counters `completed` / `transferred` / `httpCalls`
record, respectively, all `total_bar.update` calls, the bytes streamed
over GET responses, and the number of HTTP requests issued (HEAD + GET).
-/

namespace HF

/-! ### Glob matching: model of `fnmatch.fnmatch`

`fnmatch` supports `*`, `?` and `[...]` character classes (with `!`
negation, a literal leading `]`, and `a-b` ranges).  The pattern is
compiled to a token list and matched against the whole name.  The
recursions are bounded by an explicit fuel argument which provably
suffices (every step consumes at least one pattern or name character);
fuel keeps the definitions kernel-reducible on concrete inputs. -/

/-- Membership of a character in the body of a `[...]` class
(ranges `a-b` included, a trailing `-` taken literally). -/
def inClass : List Char → Char → Bool
  | [], _ => false
  | a :: '-' :: b :: rest, c =>
      (decide (a ≤ c) && decide (c ≤ b)) || inClass rest c
  | a :: rest, c => decide (a = c) || inClass rest c

/-- Scan a class body up to the closing `]`, returning the body and the
remainder of the pattern. -/
def classSpanAux : List Char → Option (List Char × List Char)
  | [] => none
  | ']' :: rest => some ([], rest)
  | c :: rest =>
      match classSpanAux rest with
      | some (m, r) => some (c :: m, r)
      | none => none

/-- Parse the inside of a `[...]` class (after the opening `[`):
optional `!` negation, then a body in which a leading `]` is literal. -/
def splitClass (ps : List Char) : Option (Bool × List Char × List Char) :=
  let neg := match ps with
    | '!' :: _ => true
    | _ => false
  let ps1 := match ps with
    | '!' :: t => t
    | _ => ps
  match ps1 with
  | ']' :: t =>
      match classSpanAux t with
      | some (m, r) => some (neg, ']' :: m, r)
      | none => none
  | _ =>
      match classSpanAux ps1 with
      | some (m, r) => some (neg, m, r)
      | none => none

/-- One compiled glob token. -/
inductive GlobTok where
  | star
  | anyChar
  | cls (neg : Bool) (mem : List Char)
  | lit (c : Char)
deriving DecidableEq

/-- Compile a glob pattern to tokens; an unterminated `[` is literal,
as in `fnmatch.translate`.  Fuel-bounded: each step consumes at least
one pattern character, so `ps.length` fuel suffices. -/
def compileAux : Nat → List Char → List GlobTok
  | 0, _ => []
  | _ + 1, [] => []
  | fuel + 1, '*' :: ps => .star :: compileAux fuel ps
  | fuel + 1, '?' :: ps => .anyChar :: compileAux fuel ps
  | fuel + 1, '[' :: ps =>
      match splitClass ps with
      | some (neg, mem, rest) => .cls neg mem :: compileAux fuel rest
      | none => .lit '[' :: compileAux fuel ps
  | fuel + 1, c :: ps => .lit c :: compileAux fuel ps

def compilePattern (ps : List Char) : List GlobTok :=
  compileAux ps.length ps

/-- Match compiled tokens against a name.  Fuel-bounded: every step
consumes at least one token or one name character. -/
def matchToksAux : Nat → List GlobTok → List Char → Bool
  | 0, _, _ => false
  | _ + 1, [], s => s.isEmpty
  | fuel + 1, .star :: ts, [] => matchToksAux fuel ts []
  | fuel + 1, .star :: ts, c :: s2 =>
      matchToksAux fuel ts (c :: s2) || matchToksAux fuel (.star :: ts) s2
  | fuel + 1, .anyChar :: ts, _ :: s2 => matchToksAux fuel ts s2
  | _ + 1, .anyChar :: _, [] => false
  | fuel + 1, .cls neg mem :: ts, c :: s2 =>
      (inClass mem c != neg) && matchToksAux fuel ts s2
  | _ + 1, .cls _ _ :: _, [] => false
  | fuel + 1, .lit a :: ts, c :: s2 => decide (a = c) && matchToksAux fuel ts s2
  | _ + 1, .lit _ :: _, [] => false

/-- Model of `fnmatch.fnmatch(name, pat)` (POSIX case behaviour). -/
def fnmatchB (name pat : String) : Bool :=
  let ts := compilePattern pat.toList
  let s := name.toList
  matchToksAux (ts.length + s.length + 1) ts s

/-- Python truthiness of an optional list (`if allow:`): `None` and `[]`
are both falsy. -/
def pyTruthy (o : Option (List String)) : Bool :=
  match o with
  | none => false
  | some l => !l.isEmpty

/-- Model of `_match_patterns(name, allow, ignore)` (source lines 53-62):
allow first, then ignore. -/
def matchPatterns (name : String) (allow ignore : Option (List String)) : Bool :=
  if pyTruthy allow && !((allow.getD []).any fun pat => fnmatchB name pat) then
    false
  else if pyTruthy ignore && ((ignore.getD []).any fun pat => fnmatchB name pat) then
    false
  else
    true

/-! ### Data model -/

/-- One remote file descriptor, as produced by `list_files_compat`:
a repo-relative path and an optional size (`None` when the metadata
provider cannot supply it). -/
structure FileInfo where
  rfilename : String
  size : Option Nat
deriving DecidableEq

/-- The local filesystem rooted at the run's base directory: a set of
created directories and a partial map from repo-relative paths to byte
contents.  `files p = none` models "the path does not exist". -/
structure FS where
  dirs : List String
  files : String → Option (List Nat)

/-- `path.parent` of a slash-separated relative path. -/
def parentDir (p : String) : String :=
  String.intercalate "/" (p.splitOn "/").dropLast

/-- Model of `_ensure_parent` (source line 65): creates the parent
directory; file contents untouched. -/
def ensureParent (fs : FS) (dest : String) : FS :=
  { fs with dirs := parentDir dest :: fs.dirs }

/-- Create or overwrite a file. -/
def setFile (fs : FS) (p : String) (c : List Nat) : FS :=
  { fs with files := Function.update fs.files p (some c) }

/-- Model of `dest.unlink()` guarded by `dest.exists()`. -/
def eraseFile (fs : FS) (p : String) : FS :=
  { fs with files := Function.update fs.files p none }

/-- Byte length of a path on disk (`0` if absent), as computed by
`dest.stat().st_size if dest.exists() else 0` (source line 137). -/
def onDiskLen (fs : FS) (p : String) : Nat :=
  ((fs.files p).getD []).length

/-- Run-scoped observable state: the filesystem plus the aggregate
progress counters.  `totOpt` is `total_bar.total` (`none` = unknown);
`completed` sums every `total_bar.update` call; `transferred` sums only
the bytes streamed from GET responses; `httpCalls` counts HTTP requests
issued (HEAD probes and GETs); `failures` counts files whose retry loop
ended without a successful transfer. -/
structure RunState where
  fs : FS
  totOpt : Option Nat
  completed : Nat
  transferred : Nat
  httpCalls : Nat
  failures : Nat

/-- Outcome of one GET attempt, as seen by the retry loop:
`full` = status 200/206 and the whole body streamed; `interrupted` =
status 200/206 but the connection died mid-stream after `bytes` were
written; `notSatisfiable` = status 416; `otherStatus` = any other HTTP
status; `transportError` = an exception before any byte was written. -/
inductive AttemptResult where
  | full (bytes : List Nat)
  | interrupted (bytes : List Nat)
  | notSatisfiable
  | otherStatus (code : Nat)
  | transportError
deriving DecidableEq

/-- Scripted behaviour of the remote for one file: the HEAD probe's
resolved Content-Length (`none` = probe failed / header unusable) and
the successive GET attempt outcomes. -/
structure FileScript where
  probe : Option Nat
  attempts : List AttemptResult
deriving DecidableEq

/-- Bytes on disk after one attempt streams `received` into the
destination: `mode = "ab" if exist_bytes > 0 else "wb"` (source
line 199) followed by the chunk-write loop (lines 201-206). -/
def writeStream (existing : List Nat) (existBytes : Nat) (received : List Nat) : List Nat :=
  (if 0 < existBytes then existing else []) ++ received

/-- Mutable state of the retry loop: `exist` is `exist_bytes`, `range`
the optional `Range: bytes=a-b` header, `retry` is `retry_count`. -/
structure LoopSt where
  exist : Nat
  range : Option (Nat × Nat)
  retry : Nat
  run : RunState

/-- Effect of a 200/206 response streaming `bytes`: open per mode,
write the chunks, and update both progress counters (lines 199-206). -/
def recordWrite (dest : String) (st : LoopSt) (bytes : List Nat) : LoopSt :=
  { st with
      run :=
        { st.run with
            fs := setFile st.run.fs dest
              (writeStream ((st.run.fs.files dest).getD []) st.exist bytes),
            completed := st.run.completed + bytes.length,
            transferred := st.run.transferred + bytes.length,
            httpCalls := st.run.httpCalls + 1 } }

/-- How the retry loop ended: `succeeded` = `break` after a 200/206,
`gaveUp` = retry budget exhausted, `starved` = the outcome script ran
out while the loop would have issued another request (a modelling
artefact; theorems use sufficiently long scripts). -/
inductive LoopRes where
  | succeeded
  | gaveUp
  | starved
deriving DecidableEq

/-- Model of the retry `while` loop (source lines 180-234).  One script
element is consumed per GET.  On 416 the local file is unlinked, the
Range header dropped and `exist_bytes` zeroed (lines 210-218); on any
other failure the loop state -- in particular `exist` and `range` -- is
kept unchanged (lines 219-234). -/
def runLoop (maxR : Nat) (dest : String) : List AttemptResult → LoopSt → LoopSt × LoopRes
  | [], st => if maxR ≤ st.retry then (st, .gaveUp) else (st, .starved)
  | a :: rest, st =>
    if maxR ≤ st.retry then (st, .gaveUp)
    else
      match a with
      | .full bytes => (recordWrite dest st bytes, .succeeded)
      | .interrupted bytes =>
          runLoop maxR dest rest
            { (recordWrite dest st bytes) with retry := st.retry + 1 }
      | .notSatisfiable =>
          runLoop maxR dest rest
            { exist := 0, range := none, retry := st.retry + 1,
              run :=
                { st.run with
                    fs := eraseFile st.run.fs dest,
                    httpCalls := st.run.httpCalls + 1 } }
      | .otherStatus _ =>
          runLoop maxR dest rest
            { st with
                retry := st.retry + 1,
                run := { st.run with httpCalls := st.run.httpCalls + 1 } }
      | .transportError =>
          runLoop maxR dest rest
            { st with
                retry := st.retry + 1,
                run := { st.run with httpCalls := st.run.httpCalls + 1 } }

/-- Wrap up one file's retry loop: count a failure when it did not
succeed (the `for` loop then just moves on, lines 223-233). -/
def finishLoop (maxR : Nat) (dest : String) (sc : FileScript) (st : LoopSt) : RunState :=
  let r := runLoop maxR dest sc.attempts st
  if r.2 = .succeeded then r.1.run
  else { r.1.run with failures := r.1.run.failures + 1 }

/-- The range-header setup (source lines 162-177), applied when the
skip check did not fire: given `exist_bytes` and the (post-probe)
remote size, returns the new `exist_bytes`, the optional Range header
`bytes=a-b`, and the filesystem (the local file is deleted on the
restart branches). -/
def rangeSetup (exist0 : Nat) (remote : Option Nat) (fs : FS) (dest : String) :
    Nat × Option (Nat × Nat) × FS :=
  if 0 < exist0 then
    match remote with
    | some rs =>
        if exist0 < rs then (exist0, some (exist0, rs - 1), fs)
        else (0, none, eraseFile fs dest)
    | none => (0, none, eraseFile fs dest)
  else (exist0, none, fs)

/-- Model of one iteration of the per-file `for` loop (source lines
125-234): ensure the parent directory, read the local size, skip when
the listed size matches (crediting it to the aggregate bar, lines
140-142), otherwise probe unknown sizes via HEAD (lines 145-160,
folding a resolved size into `total_bar.total`), set up the Range
header and run the retry loop. -/
def processFile (maxR : Nat) (sc : FileScript) (fi : FileInfo) (st0 : RunState) : RunState :=
  let dest := fi.rfilename
  let fs1 := ensureParent st0.fs dest
  let exist0 := onDiskLen fs1 dest
  match fi.size with
  | some rs =>
      if exist0 = rs then
        { st0 with fs := fs1, completed := st0.completed + rs }
      else
        let t := rangeSetup exist0 (some rs) fs1 dest
        finishLoop maxR dest sc ⟨t.1, t.2.1, 0, { st0 with fs := t.2.2 }⟩
  | none =>
      let tot1 := match sc.probe with
        | some n => some (st0.totOpt.getD 0 + n)
        | none => st0.totOpt
      let t := rangeSetup exist0 sc.probe fs1 dest
      finishLoop maxR dest sc
        ⟨t.1, t.2.1, 0,
         { st0 with
             fs := t.2.2,
             totOpt := tot1,
             httpCalls := st0.httpCalls + 1 }⟩

/-- The external world: whether `api.repo_info` succeeds, the file
listing returned by `list_files_compat`, and the per-path scripted
remote behaviour. -/
structure Env where
  repoInfoOk : Bool
  listing : List FileInfo
  scripts : String → FileScript

/-- `<localDir>/<repoType>/<repoId with "/" replaced by "__">/<revision
or "main">` (source line 108). -/
def baseDirOf (localDir repoType repoId : String) (revision : Option String) : String :=
  localDir ++ "/" ++ repoType ++ "/" ++ repoId.replace "/" "__" ++ "/" ++ revision.getD "main"

/-- `total_bytes`: the sum of the known sizes of the selected files
(source lines 97-105). -/
def sumKnown (l : List FileInfo) : Nat :=
  l.foldl (fun acc f => acc + f.size.getD 0) 0

/-- Model of `download_repo` (source lines 77-238).  Returns the final
filesystem and, on success, the final run state, the returned base
directory and `len(selected)`; a failing `repo_info` raises, modelled
as `.error ()` with the filesystem untouched.  The retry budget is the
source's hard-coded `max_retries = 3`. -/
def download_repo (env : Env) (repoId repoType localDir : String)
    (revision : Option String) (allow ignore : Option (List String)) (fs0 : FS) :
    FS × Except Unit (RunState × String × Nat) :=
  if env.repoInfoOk then
    let selected := env.listing.filter fun f => matchPatterns f.rfilename allow ignore
    let totalBytes := sumKnown selected
    let base := baseDirOf localDir repoType repoId revision
    let init : RunState :=
      { fs := { fs0 with dirs := base :: fs0.dirs },
        totOpt := if 0 < totalBytes then some totalBytes else none,
        completed := 0, transferred := 0, httpCalls := 0, failures := 0 }
    let fin := selected.foldl (fun st f => processFile 3 (env.scripts f.rfilename) f st) init
    (fin.fs, .ok (fin, base, selected.length))
  else (fs0, .error ())

/-! ### The Range Negotiator as a standalone decision function

The source has no separate `plan` function; the decision is the skip
check at line 140 followed by the range setup at lines 163-177, both
reading the same pair `(exist_bytes, remote_size)`.  `negotiate`
packages exactly that decision. -/

inductive PlanAction where
  | skip
  | resume
  | restart
deriving DecidableEq

/-- A transfer plan: the action, the bounds of the `Range:
bytes=rangeStart-rangeEnd` header when one is sent, and the write mode
(`truncate = true` models `"wb"`, `false` models `"ab"`). -/
structure TransferPlan where
  action : PlanAction
  rangeStart : Option Nat
  rangeEnd : Option Nat
  truncate : Bool
deriving DecidableEq

/-- The decision of source lines 137-177 on `(exist_bytes,
remote_size)`: skip when the known size matches (line 140); resume with
`Range: bytes=exist-(rs-1)` when `0 < exist < rs` (line 167); otherwise
restart from zero with the local file discarded (lines 168-177),
writing in truncate-create mode. -/
def negotiate (exist : Nat) (remote : Option Nat) : TransferPlan :=
  match remote with
  | some rs =>
      if exist = rs then ⟨.skip, none, none, false⟩
      else if 0 < exist then
        if exist < rs then ⟨.resume, some exist, some (rs - 1), false⟩
        else ⟨.restart, none, none, true⟩
      else ⟨.restart, none, none, true⟩
  | none => ⟨.restart, none, none, true⟩

/-- Boolean list-prefix test (used to state resume-safety decidably). -/
def listIsPrefixB : List Nat → List Nat → Bool
  | [], _ => true
  | _ :: _, [] => false
  | a :: as, b :: bs => decide (a = b) && listIsPrefixB as bs

/-- `isPlainFailure a` holds for the failure outcomes that are *not*
416: any other HTTP status, or a transport error raised before any
byte was written. -/
def isPlainFailure : AttemptResult → Bool
  | .otherStatus _ => true
  | .transportError => true
  | _ => false

/-! ### Helper lemmas -/

theorem files_ensureParent (fs : FS) (d : String) : (ensureParent fs d).files = fs.files := rfl

theorem onDiskLen_ensureParent (fs : FS) (d p : String) :
    onDiskLen (ensureParent fs d) p = onDiskLen fs p := rfl

theorem matchPatterns_trivial (name : String) : matchPatterns name none none = true := rfl

theorem listIsPrefixB_iff (a b : List Nat) : listIsPrefixB a b = true ↔ ∃ t, a ++ t = b := by
  induction a generalizing b with
  | nil => simp [listIsPrefixB]
  | cons x xs ih =>
    cases b with
    | nil =>
      simp [listIsPrefixB]
    | cons y ys =>
      simp only [listIsPrefixB, Bool.and_eq_true, decide_eq_true_eq, ih,
        List.cons_append, List.cons.injEq]
      exact ⟨fun ⟨h1, t, h2⟩ => ⟨t, h1, h2⟩, fun ⟨t, h1, h2⟩ => ⟨h1, t, h2⟩⟩

theorem take_prefixB (l : List Nat) (m n : Nat) (h : m ≤ n) :
    listIsPrefixB (l.take m) (l.take n) = true := by
  rw [listIsPrefixB_iff]
  refine ⟨(l.drop m).take (n - m), ?_⟩
  rw [← List.take_add]
  congr 1
  omega

theorem take_prefix_selfB (l : List Nat) (m : Nat) :
    listIsPrefixB (l.take m) l = true := by
  rw [listIsPrefixB_iff]
  exact ⟨l.drop m, List.take_append_drop m l⟩

/-- `negotiate` on a known size, unfolded to its if-chain. -/
theorem negotiate_some (e rs : Nat) :
    negotiate e (some rs) =
      if e = rs then ⟨.skip, none, none, false⟩
      else if 0 < e then
        if e < rs then ⟨.resume, some e, some (rs - 1), false⟩
        else ⟨.restart, none, none, true⟩
      else ⟨.restart, none, none, true⟩ := rfl

/-! ### C1: the Range Negotiator decision table -/

/-- C1 counterexample: the claim's first row says `existingBytes = 0`
always yields Restart, but for `existingBytes = 0` with a known
`remoteSize = 0` the code's skip check (source line 140) fires first
and the plan is Skip. -/
theorem C1_counterexample :
    negotiate 0 (some 0) = ⟨.skip, none, none, false⟩
    ∧ (⟨.skip, none, none, false⟩ : TransferPlan).action ≠ .restart := by
  decide

/-- C1 (amended): the decision table with the Skip row taking
precedence: a known `remoteSize` equal to `existingBytes` (including
both zero) yields Skip; otherwise `existingBytes = 0` yields Restart
with no range header and truncate-create mode; `0 < existingBytes <
remoteSize` yields Resume with range `[existingBytes, remoteSize-1]`
in append mode; `existingBytes` exceeding a known `remoteSize`, or an
unknown `remoteSize`, yields Restart with the local bytes discarded. -/
theorem C1_plan_table_amended :
    (∀ rs : Nat, negotiate rs (some rs) = ⟨.skip, none, none, false⟩)
  ∧ (∀ rs : Nat, 0 < rs → negotiate 0 (some rs) = ⟨.restart, none, none, true⟩)
  ∧ (∀ e rs : Nat, 0 < e → e < rs →
      negotiate e (some rs) = ⟨.resume, some e, some (rs - 1), false⟩)
  ∧ (∀ e rs : Nat, rs < e → negotiate e (some rs) = ⟨.restart, none, none, true⟩)
  ∧ (∀ e : Nat, negotiate e none = ⟨.restart, none, none, true⟩) := by
  refine ⟨fun rs => by simp [negotiate], fun rs h => ?_, fun e rs h1 h2 => ?_,
    fun e rs h => ?_, fun e => rfl⟩
  · have hne : (0 : Nat) ≠ rs := by omega
    simp [negotiate, hne]
  · have hne : e ≠ rs := by omega
    simp [negotiate, hne, h1, h2]
  · have hne : e ≠ rs := by omega
    have h3 : ¬ e < rs := by omega
    have h4 : 0 < e := by omega
    simp [negotiate, hne, h3, h4]

theorem C1_witness :
    negotiate 3 (some 3) = ⟨.skip, none, none, false⟩
    ∧ negotiate 0 (some 5) = ⟨.restart, none, none, true⟩
    ∧ negotiate 2 (some 5) = ⟨.resume, some 2, some 4, false⟩
    ∧ negotiate 7 (some 5) = ⟨.restart, none, none, true⟩
    ∧ negotiate 4 none = ⟨.restart, none, none, true⟩ :=
  ⟨C1_plan_table_amended.1 3,
   C1_plan_table_amended.2.1 5 (by decide),
   C1_plan_table_amended.2.2.1 2 5 (by decide) (by decide),
   C1_plan_table_amended.2.2.2.1 7 5 (by decide),
   C1_plan_table_amended.2.2.2.2 4⟩

/-! ### C7: complete files are skipped without any network call -/

/-- C7: when a file's known listed size equals its on-disk length, the
plan is Skip and the per-file step only creates the parent directory
and credits the full size to the aggregate counter: the file map,
`transferred`, `httpCalls` (no HEAD, no GET), `totOpt` and `failures`
are all untouched. -/
theorem C7_skip_complete_file (maxR : Nat) (sc : FileScript) (fi : FileInfo)
    (st : RunState) (rs : Nat) (hsize : fi.size = some rs)
    (hlen : onDiskLen st.fs fi.rfilename = rs) :
    processFile maxR sc fi st =
      { st with
          fs := ensureParent st.fs fi.rfilename,
          completed := st.completed + rs }
    ∧ negotiate (onDiskLen st.fs fi.rfilename) fi.size = ⟨.skip, none, none, false⟩ := by
  constructor
  · unfold processFile
    rw [hsize]
    simp [onDiskLen_ensureParent, hlen]
  · rw [hsize, hlen]
    simp [negotiate]

theorem C7_witness :
    processFile 3 ⟨none, []⟩ ⟨"w7", some 3⟩
        ⟨⟨[], fun p => if p = "w7" then some [5, 6, 7] else none⟩, some 9, 4, 4, 2, 0⟩ =
      ⟨ensureParent ⟨[], fun p => if p = "w7" then some [5, 6, 7] else none⟩ "w7",
       some 9, 7, 4, 2, 0⟩
    ∧ negotiate 3 (some 3) = ⟨.skip, none, none, false⟩ :=
  C7_skip_complete_file 3 ⟨none, []⟩ ⟨"w7", some 3⟩
    ⟨⟨[], fun p => if p = "w7" then some [5, 6, 7] else none⟩, some 9, 4, 4, 2, 0⟩
    3 rfl (by decide)

/-! ### C9: the pattern filter -/

/-- C9: `_match_patterns` includes a path iff it glob-matches some
allow pattern whenever the allow list is present and non-empty, and
matches no ignore pattern whenever the ignore list is present and
non-empty (an absent or empty list imposes no restriction); plus the
claim's concrete instances with allow `*.safetensors` and ignore
`*old*`. -/
theorem C9_pattern_filter :
    (∀ (name : String) (allow ignore : Option (List String)),
        matchPatterns name allow ignore = true ↔
          ((pyTruthy allow = true → ((allow.getD []).any fun p => fnmatchB name p) = true)
           ∧ (pyTruthy ignore = true → ((ignore.getD []).any fun p => fnmatchB name p) = false)))
  ∧ matchPatterns "model-old.safetensors" (some ["*.safetensors"]) (some ["*old*"]) = false
  ∧ matchPatterns "model.safetensors" (some ["*.safetensors"]) (some ["*old*"]) = true
  ∧ matchPatterns "model.bin" (some ["*.safetensors"]) (some ["*old*"]) = false := by
  refine ⟨fun name allow ignore => ?_, by decide, by decide, by decide⟩
  unfold matchPatterns
  cases hA : pyTruthy allow <;> cases hI : pyTruthy ignore <;>
    cases hA2 : (allow.getD []).any (fun p => fnmatchB name p) <;>
      cases hI2 : (ignore.getD []).any (fun p => fnmatchB name p) <;>
        simp [hA, hI, hA2, hI2]

theorem C9_witness :
    matchPatterns "model.safetensors" (some ["*.safetensors"]) (some ["*old*"]) = true :=
  C9_pattern_filter.2.2.1

/-! ### C10: a failing repo-info call leaves the filesystem untouched -/

/-- C10: when `api.repo_info` raises (source line 92), `download_repo`
propagates the error before `base_dir.mkdir` (line 109) or any file
write: the returned filesystem is exactly the input one. -/
theorem C10_setup_error_no_side_effect (env : Env) (repoId repoType localDir : String)
    (revision : Option String) (allow ignore : Option (List String)) (fs0 : FS)
    (h : env.repoInfoOk = false) :
    download_repo env repoId repoType localDir revision allow ignore fs0 = (fs0, .error ()) := by
  unfold download_repo
  rw [h]
  rfl

theorem C10_witness :
    download_repo ⟨false, [⟨"p", some 1⟩], fun _ => ⟨none, []⟩⟩ "r" "model" "d" none none none
        ⟨["d"], fun _ => none⟩ =
      (⟨["d"], fun _ => none⟩, .error ()) :=
  C10_setup_error_no_side_effect ⟨false, [⟨"p", some 1⟩], fun _ => ⟨none, []⟩⟩
    "r" "model" "d" none none none ⟨["d"], fun _ => none⟩ rfl

/-! ### C2: resume-safety of streaming transfers -/

/-- C2 counterexample: remote content `[1,2,3,4]` (known size 4),
local partial `[1,2]`, so the plan is Resume with range `bytes=2-3`.
The first attempt receives `[3]` and dies mid-stream; the retried
attempt keeps the stale range header (source lines 228-234 never
recompute it), the server re-sends the range from byte 2, and append
mode duplicates byte `3`: the on-disk file `[1,2,3,3]` is not a prefix
of the remote file, refuting the unconditional claim that every
partial file is a legitimate prefix. -/
theorem C2_counterexample :
    ((processFile 3 ⟨none, [.interrupted [3], .interrupted [3], .otherStatus 500]⟩
        ⟨"f", some 4⟩
        ⟨⟨[], fun p => if p = "f" then some [1, 2] else none⟩,
         none, 0, 0, 0, 0⟩).fs.files "f")
      = some [1, 2, 3, 3]
    ∧ listIsPrefixB [1, 2, 3, 3] [1, 2, 3, 4] = false := by
  decide

/-- C2 (amended): for a single attempt whose plan is negotiated
against the current local state -- the local file being the length-`e`
prefix of the remote `content` -- the invariant holds at every point:
receiving any `k`-byte prefix of the bytes the remote supplies for the
requested range leaves on disk exactly `content.take (e + k)`, a
prefix of the remote file whose length `e + k` never exceeds the
resume offset plus the supplied bytes (nor the remote length), and a
longer received prefix only extends the file (never truncates it).
For a Restart attempt the prior local content is discarded at open and
the file is `content.take k`, again a prefix, growing monotonically.
The invariant is *not* preserved across a retry of a mid-stream-failed
resume attempt, which keeps a stale offset (see the counterexample). -/
theorem C2_resume_safety_amended (content : List Nat) (e k j : Nat)
    (he : e ≤ content.length) (hk : k ≤ content.length - e) (hj : j ≤ k) :
    ((negotiate e (some content.length)).action = .resume →
        writeStream (content.take e) e ((content.drop e).take k) = content.take (e + k)
      ∧ listIsPrefixB (writeStream (content.take e) e ((content.drop e).take k)) content = true
      ∧ (writeStream (content.take e) e ((content.drop e).take k)).length = e + k
      ∧ e + k ≤ content.length
      ∧ listIsPrefixB (writeStream (content.take e) e ((content.drop e).take j))
          (writeStream (content.take e) e ((content.drop e).take k)) = true)
  ∧ (∀ prior : List Nat,
        writeStream prior 0 (content.take k) = content.take k
      ∧ listIsPrefixB (content.take k) content = true
      ∧ (content.take k).length ≤ k
      ∧ listIsPrefixB (content.take j) (content.take k) = true) := by
  have hek : e + k ≤ content.length := by omega
  have hwrite : ∀ m : Nat, 0 < e →
      writeStream (content.take e) e ((content.drop e).take m) = content.take (e + m) := by
    intro m hpos
    unfold writeStream
    rw [if_pos hpos, ← List.take_add]
  constructor
  · intro hres
    have hpos : 0 < e := by
      rw [negotiate_some] at hres
      by_cases h1 : e = content.length
      · rw [if_pos h1] at hres
        exact absurd hres (by decide)
      · rw [if_neg h1] at hres
        by_cases h2 : 0 < e
        · exact h2
        · rw [if_neg h2] at hres
          exact absurd hres (by decide)
    refine ⟨hwrite k hpos, ?_, ?_, hek, ?_⟩
    · rw [hwrite k hpos]
      exact take_prefix_selfB content (e + k)
    · rw [hwrite k hpos, List.length_take]
      omega
    · rw [hwrite k hpos, hwrite j hpos]
      exact take_prefixB content (e + j) (e + k) (by omega)
  · intro prior
    refine ⟨?_, take_prefix_selfB content k, ?_, take_prefixB content j k hj⟩
    · unfold writeStream
      simp
    · rw [List.length_take]
      omega

theorem C2_witness :
    (negotiate 2 (some 5) = ⟨.resume, some 2, some 4, false⟩)
    ∧ ((negotiate 2 (some ([1, 2, 3, 4, 5] : List Nat).length)).action = .resume →
        writeStream (([1, 2, 3, 4, 5] : List Nat).take 2) 2
            ((([1, 2, 3, 4, 5] : List Nat).drop 2).take 2)
          = ([1, 2, 3, 4, 5] : List Nat).take (2 + 2)) := by
  refine ⟨by decide, fun h => ?_⟩
  exact ((C2_resume_safety_amended [1, 2, 3, 4, 5] 2 2 1 (by decide) (by decide)
    (by decide)).1 h).1

/-! ### C3: a 416 response triggers restart-and-retry -/

/-- C3: on a 416 outcome the supervisor unlinks the local partial
file, resets the plan to Restart (no Range header, `exist_bytes = 0`),
and consumes exactly one retry-budget unit; with budget greater than 1
the next attempt is issued (no immediate give-up), and when that
attempt succeeds with body `b` the file on disk is exactly `b` (the
discarded partial bytes do not survive), with the budget having been
decremented exactly once. -/
theorem C3_416_restart_retry (maxR : Nat) (dest : String) (st : LoopSt)
    (b : List Nat) (rest : List AttemptResult)
    (hlt : st.retry < maxR) :
    (runLoop maxR dest (.notSatisfiable :: rest) st =
       runLoop maxR dest rest
         ⟨0, none, st.retry + 1,
          { st.run with
              fs := eraseFile st.run.fs dest,
              httpCalls := st.run.httpCalls + 1 }⟩)
  ∧ (st.retry = 0 → 1 < maxR →
        (runLoop maxR dest (.notSatisfiable :: .full b :: rest) st).2 = .succeeded
      ∧ (runLoop maxR dest (.notSatisfiable :: .full b :: rest) st).1.retry = 1
      ∧ (runLoop maxR dest (.notSatisfiable :: .full b :: rest) st).1.run.fs.files dest
          = some b
      ∧ (runLoop maxR dest (.notSatisfiable :: .full b :: rest) st).1.run.completed
          = st.run.completed + b.length) := by
  have hguard : ¬ maxR ≤ st.retry := by omega
  constructor
  · simp [runLoop, hguard]
  · intro h0 h1
    have hguard1 : ¬ maxR ≤ 1 := by omega
    have hm0 : ¬ maxR = 0 := by omega
    simp [runLoop, hguard, hguard1, h0, hm0, recordWrite, setFile, eraseFile, writeStream,
      Function.update_same]

theorem C3_witness :
    (runLoop 3 "w3" [.notSatisfiable, .full [8, 9]]
        ⟨2, some (2, 3), 0, ⟨⟨[], fun p => if p = "w3" then some [1, 2] else none⟩,
          none, 0, 0, 0, 0⟩⟩).2 = .succeeded
    ∧ (runLoop 3 "w3" [.notSatisfiable, .full [8, 9]]
        ⟨2, some (2, 3), 0, ⟨⟨[], fun p => if p = "w3" then some [1, 2] else none⟩,
          none, 0, 0, 0, 0⟩⟩).1.retry = 1
    ∧ (runLoop 3 "w3" [.notSatisfiable, .full [8, 9]]
        ⟨2, some (2, 3), 0, ⟨⟨[], fun p => if p = "w3" then some [1, 2] else none⟩,
          none, 0, 0, 0, 0⟩⟩).1.run.fs.files "w3" = some [8, 9] := by
  have h := (C3_416_restart_retry 3 "w3"
    ⟨2, some (2, 3), 0, ⟨⟨[], fun p => if p = "w3" then some [1, 2] else none⟩,
      none, 0, 0, 0, 0⟩⟩ [8, 9] [] (by decide)).2 rfl (by decide)
  exact ⟨h.1, h.2.1, h.2.2.1⟩

/-! ### C4: the transfer plan is not recomputed per attempt -/

/-- C4 counterexample: local `[1,2]`, remote size 4, plan Resume with
range `bytes=2-3`.  After a mid-stream failure that wrote byte `3`,
the next attempt's loop state still carries range start 2 and
`exist_bytes = 2`, while the file is now 3 bytes long; a freshly
computed plan from the current local state would resume at offset 3.
So the retried attempt does not reflect the bytes written by the
failed attempt, refuting the claim. -/
theorem C4_counterexample :
    (runLoop 3 "f4" [.interrupted [3]]
        ⟨2, some (2, 3), 0, ⟨⟨[], fun p => if p = "f4" then some [1, 2] else none⟩,
          none, 0, 0, 0, 0⟩⟩).1.range = some (2, 3)
    ∧ (runLoop 3 "f4" [.interrupted [3]]
        ⟨2, some (2, 3), 0, ⟨⟨[], fun p => if p = "f4" then some [1, 2] else none⟩,
          none, 0, 0, 0, 0⟩⟩).1.exist = 2
    ∧ onDiskLen (runLoop 3 "f4" [.interrupted [3]]
        ⟨2, some (2, 3), 0, ⟨⟨[], fun p => if p = "f4" then some [1, 2] else none⟩,
          none, 0, 0, 0, 0⟩⟩).1.run.fs "f4" = 3
    ∧ (negotiate 3 (some 4)).rangeStart = some 3
    ∧ some ((2 : Nat), (3 : Nat)) ≠ some ((3 : Nat), (3 : Nat)) := by
  decide

/-- C4 (amended): the transfer plan is computed once per file before
the retry loop; inside the loop a non-416 failure (other HTTP status,
transport error, or mid-stream interruption) keeps `exist_bytes` and
the Range header exactly as they were, consuming one budget unit; only
a 416 changes the plan, resetting it to Restart (no range, file
unlinked).  Consequently a resume attempt retried after a mid-stream
failure re-requests the original range and appends it after the bytes
already written: the final file is `prior ++ b ++ b2`, not a
fresh-plan continuation. -/
theorem C4_stale_plan_amended :
    (∀ (maxR : Nat) (dest : String) (st : LoopSt) (a : AttemptResult),
        st.retry < maxR → isPlainFailure a = true →
          (runLoop maxR dest [a] st).1.exist = st.exist
        ∧ (runLoop maxR dest [a] st).1.range = st.range
        ∧ (runLoop maxR dest [a] st).1.retry = st.retry + 1)
  ∧ (∀ (maxR : Nat) (dest : String) (st : LoopSt) (b : List Nat),
        st.retry < maxR →
          (runLoop maxR dest [.interrupted b] st).1.exist = st.exist
        ∧ (runLoop maxR dest [.interrupted b] st).1.range = st.range
        ∧ (runLoop maxR dest [.interrupted b] st).1.retry = st.retry + 1)
  ∧ (∀ (maxR : Nat) (dest : String) (st : LoopSt),
        st.retry < maxR →
          (runLoop maxR dest [.notSatisfiable] st).1.exist = 0
        ∧ (runLoop maxR dest [.notSatisfiable] st).1.range = none
        ∧ (runLoop maxR dest [.notSatisfiable] st).1.run.fs.files dest = none)
  ∧ (∀ (maxR : Nat) (dest : String) (st : LoopSt) (b b2 : List Nat)
       (rest : List AttemptResult),
        st.retry = 0 → 1 < maxR → 0 < st.exist →
        (runLoop maxR dest (.interrupted b :: .full b2 :: rest) st).1.run.fs.files dest
          = some ((((st.run.fs.files dest).getD []) ++ b) ++ b2)) := by
  refine ⟨fun maxR dest st a hlt ha => ?_, fun maxR dest st b hlt => ?_,
    fun maxR dest st hlt => ?_, fun maxR dest st b b2 rest h0 h1 hex => ?_⟩
  · have hguard : ¬ maxR ≤ st.retry := by omega
    cases a with
    | otherStatus c =>
        by_cases h2 : maxR ≤ st.retry + 1 <;> simp [runLoop, hguard, h2]
    | transportError =>
        by_cases h2 : maxR ≤ st.retry + 1 <;> simp [runLoop, hguard, h2]
    | full bytes => exact absurd ha (by simp [isPlainFailure])
    | interrupted bytes => exact absurd ha (by simp [isPlainFailure])
    | notSatisfiable => exact absurd ha (by simp [isPlainFailure])
  · have hguard : ¬ maxR ≤ st.retry := by omega
    by_cases h2 : maxR ≤ st.retry + 1 <;> simp [runLoop, hguard, h2, recordWrite]
  · have hguard : ¬ maxR ≤ st.retry := by omega
    by_cases h2 : maxR ≤ st.retry + 1 <;>
      simp [runLoop, hguard, h2, eraseFile, Function.update_same]
  · have hguard : ¬ maxR ≤ st.retry := by omega
    have hm0 : ¬ maxR = 0 := by omega
    have hm1 : ¬ maxR ≤ 1 := by omega
    simp [runLoop, hguard, hm0, hm1, recordWrite, setFile, writeStream,
      Function.update_same, hex, h0]

theorem C4_witness :
    ((runLoop 3 "w4" [.otherStatus 500]
        ⟨5, some (5, 9), 0, ⟨⟨[], fun _ => none⟩, none, 0, 0, 0, 0⟩⟩).1.exist = 5
      ∧ (runLoop 3 "w4" [.otherStatus 500]
        ⟨5, some (5, 9), 0, ⟨⟨[], fun _ => none⟩, none, 0, 0, 0, 0⟩⟩).1.range = some (5, 9)
      ∧ (runLoop 3 "w4" [.otherStatus 500]
        ⟨5, some (5, 9), 0, ⟨⟨[], fun _ => none⟩, none, 0, 0, 0, 0⟩⟩).1.retry = 1)
    ∧ (runLoop 3 "w4b" [.interrupted [7], .full [7, 8]]
        ⟨1, some (1, 2), 0, ⟨⟨[], fun p => if p = "w4b" then some [6] else none⟩,
          none, 0, 0, 0, 0⟩⟩).1.run.fs.files "w4b" = some (([6] ++ [7]) ++ [7, 8]) := by
  constructor
  · exact C4_stale_plan_amended.1 3 "w4"
      ⟨5, some (5, 9), 0, ⟨⟨[], fun _ => none⟩, none, 0, 0, 0, 0⟩⟩
      (.otherStatus 500) (by decide) (by decide)
  · exact C4_stale_plan_amended.2.2.2 3 "w4b"
      ⟨1, some (1, 2), 0, ⟨⟨[], fun p => if p = "w4b" then some [6] else none⟩,
        none, 0, 0, 0, 0⟩⟩ [7] [7, 8] [] rfl (by decide) (by decide)

/-! ### Helper lemmas about single per-file steps -/

/-- A script of non-416 failures that exactly exhausts the budget ends
in `gaveUp`, leaving everything but `retry` and `httpCalls` unchanged. -/
theorem runLoop_plainFailures (dest : String) :
    ∀ (as : List AttemptResult) (maxR : Nat) (st : LoopSt),
      (∀ a ∈ as, isPlainFailure a = true) →
      st.retry + as.length = maxR →
      runLoop maxR dest as st =
        ({ st with
             retry := maxR,
             run := { st.run with httpCalls := st.run.httpCalls + as.length } }, .gaveUp) := by
  intro as
  induction as with
  | nil =>
    intro maxR st _ hlen
    have hr : st.retry = maxR := by simpa using hlen
    subst hr
    simp [runLoop]
  | cons a rest ih =>
    intro maxR st hall hlen
    simp only [List.length_cons] at hlen
    have hguard : ¬ maxR ≤ st.retry := by omega
    have ha := hall a (by simp)
    have hrest : ∀ x ∈ rest, isPlainFailure x = true := fun x hx => hall x (by simp [hx])
    have harith : st.run.httpCalls + 1 + rest.length
        = st.run.httpCalls + (rest.length + 1) := by omega
    cases a with
    | otherStatus c =>
      have hstep : runLoop maxR dest (AttemptResult.otherStatus c :: rest) st =
          runLoop maxR dest rest
            { st with
                retry := st.retry + 1,
                run := { st.run with httpCalls := st.run.httpCalls + 1 } } := by
        simp [runLoop, hguard]
      rw [hstep, ih maxR _ hrest (by simp; omega)]
      simp [harith]
    | transportError =>
      have hstep : runLoop maxR dest (AttemptResult.transportError :: rest) st =
          runLoop maxR dest rest
            { st with
                retry := st.retry + 1,
                run := { st.run with httpCalls := st.run.httpCalls + 1 } } := by
        simp [runLoop, hguard]
      rw [hstep, ih maxR _ hrest (by simp; omega)]
      simp [harith]
    | full bytes => exact absurd ha (by simp [isPlainFailure])
    | interrupted bytes => exact absurd ha (by simp [isPlainFailure])
    | notSatisfiable => exact absurd ha (by simp [isPlainFailure])

/-- A file whose known listed size matches the on-disk length is
skipped: only the parent directory and the aggregate credit change. -/
theorem processFile_skip (maxR : Nat) (sc : FileScript) (fi : FileInfo)
    (st : RunState) (rs : Nat) (hsize : fi.size = some rs)
    (hlen : onDiskLen st.fs fi.rfilename = rs) :
    processFile maxR sc fi st =
      { st with
          fs := ensureParent st.fs fi.rfilename,
          completed := st.completed + rs } := by
  unfold processFile
  rw [hsize]
  simp [onDiskLen_ensureParent, hlen]

/-- A fresh file with known non-zero listed size and a single
successful full-body attempt is downloaded in one GET. -/
theorem processFile_fresh_known_pos (sc : FileScript) (fi : FileInfo) (st : RunState)
    (c : List Nat) (hsize : fi.size = some c.length) (hpos : 0 < c.length)
    (hatt : sc.attempts = [.full c])
    (hfresh : st.fs.files fi.rfilename = none) :
    processFile 3 sc fi st =
      { st with
          fs := setFile (ensureParent st.fs fi.rfilename) fi.rfilename c,
          completed := st.completed + c.length,
          transferred := st.transferred + c.length,
          httpCalls := st.httpCalls + 1 } := by
  have hne : ¬ ((0 : Nat) = c.length) := by omega
  unfold processFile
  rw [hsize]
  simp only [onDiskLen, files_ensureParent, hfresh, Option.getD_none, List.length_nil, hne,
    if_false, rangeSetup, Nat.lt_irrefl, if_neg (by omega : ¬ (0 : Nat) < 0)]
  unfold finishLoop
  rw [hatt]
  simp [runLoop, recordWrite, writeStream, setFile, files_ensureParent, hfresh]

/-- A fresh file with known listed size zero is skipped outright: no
file is created and no request is issued. -/
theorem processFile_fresh_empty (maxR : Nat) (sc : FileScript) (fi : FileInfo)
    (st : RunState) (hsize : fi.size = some 0)
    (hfresh : st.fs.files fi.rfilename = none) :
    processFile maxR sc fi st =
      { st with
          fs := ensureParent st.fs fi.rfilename,
          completed := st.completed + 0 } := by
  refine processFile_skip maxR sc fi st 0 hsize ?_
  simp [onDiskLen, hfresh]

/-- A fresh file with unknown listed size whose HEAD probe resolves
the size and whose single attempt streams the whole body: two HTTP
calls, and the resolved size is folded into the aggregate total. -/
theorem processFile_fresh_probed (sc : FileScript) (fi : FileInfo) (st : RunState)
    (c : List Nat) (hsize : fi.size = none) (hprobe : sc.probe = some c.length)
    (hatt : sc.attempts = [.full c])
    (hfresh : st.fs.files fi.rfilename = none) :
    processFile 3 sc fi st =
      { st with
          fs := setFile (ensureParent st.fs fi.rfilename) fi.rfilename c,
          totOpt := some (st.totOpt.getD 0 + c.length),
          completed := st.completed + c.length,
          transferred := st.transferred + c.length,
          httpCalls := st.httpCalls + 2 } := by
  unfold processFile
  rw [hsize, hprobe]
  simp only [onDiskLen, files_ensureParent, hfresh, Option.getD_none, List.length_nil,
    rangeSetup, if_neg (by omega : ¬ (0 : Nat) < 0)]
  unfold finishLoop
  rw [hatt]
  simp [runLoop, recordWrite, writeStream, setFile, files_ensureParent, hfresh]

/-- A fresh file with known non-zero size whose three attempts all
fail with non-416 outcomes: the budget is exhausted, nothing is
written, and the file is recorded as a failure. -/
theorem processFile_fresh_allFail (sc : FileScript) (fi : FileInfo) (st : RunState)
    (rs : Nat) (hsize : fi.size = some rs) (hpos : 0 < rs)
    (hfresh : st.fs.files fi.rfilename = none)
    (hlen : sc.attempts.length = 3)
    (hfail : ∀ a ∈ sc.attempts, isPlainFailure a = true) :
    processFile 3 sc fi st =
      { st with
          fs := ensureParent st.fs fi.rfilename,
          httpCalls := st.httpCalls + 3,
          failures := st.failures + 1 } := by
  have hne : ¬ ((0 : Nat) = rs) := by omega
  unfold processFile
  rw [hsize]
  simp only [onDiskLen, files_ensureParent, hfresh, Option.getD_none, List.length_nil, hne,
    if_false, rangeSetup, if_neg (by omega : ¬ (0 : Nat) < 0)]
  unfold finishLoop
  rw [runLoop_plainFailures fi.rfilename sc.attempts 3
    ⟨0, none, 0, { st with fs := ensureParent st.fs fi.rfilename }⟩ hfail (by simp [hlen])]
  simp [hlen]

theorem sumKnown_acc (l : List FileInfo) :
    ∀ a : Nat, l.foldl (fun acc f => acc + f.size.getD 0) a
      = a + (l.map fun f => f.size.getD 0).sum := by
  induction l with
  | nil => intro a; simp
  | cons f rest ih =>
    intro a
    simp only [List.foldl_cons, List.map_cons, List.sum_cons, ih]
    omega

theorem sumKnown_eq (l : List FileInfo) :
    sumKnown l = (l.map fun f => f.size.getD 0).sum := by
  simpa [sumKnown] using sumKnown_acc l 0

/-- Combined projections for a fresh known-size file downloaded by a
single full-body attempt (covering the zero-size skip case). -/
theorem processFile_fresh_known_step (sc : FileScript) (fi : FileInfo) (st : RunState)
    (c : List Nat) (hsize : fi.size = some c.length)
    (hatt : sc.attempts = [.full c])
    (hfresh : st.fs.files fi.rfilename = none) :
    (processFile 3 sc fi st).completed = st.completed + c.length
    ∧ (processFile 3 sc fi st).transferred = st.transferred + c.length
    ∧ (processFile 3 sc fi st).totOpt = st.totOpt
    ∧ (processFile 3 sc fi st).failures = st.failures
    ∧ onDiskLen (processFile 3 sc fi st).fs fi.rfilename = c.length
    ∧ (∀ q, q ≠ fi.rfilename → (processFile 3 sc fi st).fs.files q = st.fs.files q) := by
  rcases Nat.eq_zero_or_pos c.length with h0 | hp
  · have hc : c = [] := List.length_eq_zero.mp h0
    rw [processFile_fresh_empty 3 sc fi st (by rw [hsize, h0]) hfresh]
    subst hc
    simp [onDiskLen, files_ensureParent, hfresh]
  · rw [processFile_fresh_known_pos sc fi st c hsize hp hatt hfresh]
    refine ⟨by simp, by simp, by simp, by simp, ?_, ?_⟩
    · simp [onDiskLen, setFile, files_ensureParent, Function.update_same]
    · intro q hq
      simp [setFile, files_ensureParent, Function.update_noteq hq]

/-- Folding the per-file step over fresh files with known sizes and
single successful full-body attempts. -/
theorem foldl_fresh_known (sc : String → FileScript) (rc : String → List Nat) :
    ∀ (l : List FileInfo) (st : RunState),
      (∀ f ∈ l, f.size = some (rc f.rfilename).length) →
      (∀ f ∈ l, (sc f.rfilename).attempts = [.full (rc f.rfilename)]) →
      (∀ f ∈ l, st.fs.files f.rfilename = none) →
      (l.map FileInfo.rfilename).Nodup →
      (l.foldl (fun s f => processFile 3 (sc f.rfilename) f s) st).completed
          = st.completed + (l.map fun f => (rc f.rfilename).length).sum
      ∧ (l.foldl (fun s f => processFile 3 (sc f.rfilename) f s) st).transferred
          = st.transferred + (l.map fun f => (rc f.rfilename).length).sum
      ∧ (l.foldl (fun s f => processFile 3 (sc f.rfilename) f s) st).totOpt = st.totOpt
      ∧ (l.foldl (fun s f => processFile 3 (sc f.rfilename) f s) st).failures = st.failures
      ∧ (∀ q, q ∉ l.map FileInfo.rfilename →
          (l.foldl (fun s f => processFile 3 (sc f.rfilename) f s) st).fs.files q
            = st.fs.files q)
      ∧ (∀ f ∈ l, onDiskLen
          (l.foldl (fun s f => processFile 3 (sc f.rfilename) f s) st).fs f.rfilename
            = (rc f.rfilename).length) := by
  intro l
  induction l with
  | nil =>
    intro st _ _ _ _
    simp
  | cons f rest ih =>
    intro st hsize hatt hfresh hnodup
    have hsf : f.size = some (rc f.rfilename).length := hsize f (List.mem_cons_self f rest)
    have haf := hatt f (List.mem_cons_self f rest)
    have hff := hfresh f (List.mem_cons_self f rest)
    have hnf : f.rfilename ∉ rest.map FileInfo.rfilename := by
      have h := hnodup
      simp only [List.map_cons, List.nodup_cons] at h
      exact h.1
    have hnodup' : (rest.map FileInfo.rfilename).Nodup := by
      have h := hnodup
      simp only [List.map_cons, List.nodup_cons] at h
      exact h.2
    have hxne : ∀ x ∈ rest, x.rfilename ≠ f.rfilename := by
      intro x hx heq
      exact hnf (heq ▸ List.mem_map_of_mem FileInfo.rfilename hx)
    rcases processFile_fresh_known_step (sc f.rfilename) f st (rc f.rfilename) hsf haf hff
      with ⟨hc1, ht1, hto1, hfl1, hod1, hoth1⟩
    have hfresh' : ∀ x ∈ rest,
        (processFile 3 (sc f.rfilename) f st).fs.files x.rfilename = none := by
      intro x hx
      rw [hoth1 x.rfilename (hxne x hx)]
      exact hfresh x (List.mem_cons_of_mem f hx)
    obtain ⟨ih1, ih2, ih3, ih4, ih5, ih6⟩ :=
      ih (processFile 3 (sc f.rfilename) f st)
        (fun x hx => hsize x (List.mem_cons_of_mem f hx))
        (fun x hx => hatt x (List.mem_cons_of_mem f hx)) hfresh' hnodup'
    simp only [List.foldl_cons, List.map_cons, List.sum_cons]
    refine ⟨by rw [ih1, hc1]; omega, by rw [ih2, ht1]; omega, by rw [ih3, hto1],
      by rw [ih4, hfl1], ?_, ?_⟩
    · intro q hq
      simp only [List.map_cons, List.mem_cons, not_or] at hq
      rw [ih5 q hq.2, hoth1 q hq.1]
    · intro x hx
      rcases List.mem_cons.mp hx with hx1 | hx2
      · subst hx1
        unfold onDiskLen
        rw [ih5 x.rfilename hnf]
        exact hod1
      · exact ih6 x hx2

/-- Folding the per-file step over files whose known sizes all match
the on-disk lengths: everything is skipped. -/
theorem foldl_complete_known (sc : String → FileScript) :
    ∀ (l : List FileInfo) (st : RunState),
      (∀ f ∈ l, ∃ rs, f.size = some rs ∧ onDiskLen st.fs f.rfilename = rs) →
      (l.foldl (fun s f => processFile 3 (sc f.rfilename) f s) st).completed
          = st.completed + (l.map fun f => f.size.getD 0).sum
      ∧ (l.foldl (fun s f => processFile 3 (sc f.rfilename) f s) st).transferred
          = st.transferred
      ∧ (l.foldl (fun s f => processFile 3 (sc f.rfilename) f s) st).httpCalls
          = st.httpCalls
      ∧ (l.foldl (fun s f => processFile 3 (sc f.rfilename) f s) st).totOpt = st.totOpt
      ∧ (l.foldl (fun s f => processFile 3 (sc f.rfilename) f s) st).failures = st.failures
      ∧ (l.foldl (fun s f => processFile 3 (sc f.rfilename) f s) st).fs.files
          = st.fs.files := by
  intro l
  induction l with
  | nil =>
    intro st _
    simp
  | cons f rest ih =>
    intro st hcomp
    obtain ⟨rs, hs, hl⟩ := hcomp f (List.mem_cons_self f rest)
    rw [List.foldl_cons, processFile_skip 3 (sc f.rfilename) f st rs hs hl]
    have hcomp' : ∀ x ∈ rest, ∃ rs2, x.size = some rs2 ∧
        onDiskLen { st with
          fs := ensureParent st.fs f.rfilename,
          completed := st.completed + rs }.fs x.rfilename = rs2 := by
      intro x hx
      obtain ⟨rs2, hs2, hl2⟩ := hcomp x (List.mem_cons_of_mem f hx)
      exact ⟨rs2, hs2, hl2⟩
    obtain ⟨ih1, ih2, ih3, ih4, ih5, ih6⟩ := ih _ hcomp'
    simp only [List.map_cons, List.sum_cons]
    refine ⟨?_, by rw [ih2], by rw [ih3], by rw [ih4], by rw [ih5],
      by rw [ih6]; simp [ensureParent]⟩
    rw [ih1]
    simp only [hs, Option.getD_some]
    omega

/-- `download_repo` on a reachable repo, unfolded. -/
theorem download_repo_ok (env : Env) (repoId repoType localDir : String)
    (revision : Option String) (allow ignore : Option (List String)) (fs0 : FS)
    (hok : env.repoInfoOk = true) :
    download_repo env repoId repoType localDir revision allow ignore fs0 =
      (((env.listing.filter fun f => matchPatterns f.rfilename allow ignore).foldl
          (fun st f => processFile 3 (env.scripts f.rfilename) f st)
          { fs := { fs0 with dirs := baseDirOf localDir repoType repoId revision :: fs0.dirs },
            totOpt := if 0 < sumKnown (env.listing.filter fun f =>
                  matchPatterns f.rfilename allow ignore)
              then some (sumKnown (env.listing.filter fun f =>
                  matchPatterns f.rfilename allow ignore))
              else none,
            completed := 0, transferred := 0, httpCalls := 0, failures := 0 }).fs,
       .ok ((env.listing.filter fun f => matchPatterns f.rfilename allow ignore).foldl
          (fun st f => processFile 3 (env.scripts f.rfilename) f st)
          { fs := { fs0 with dirs := baseDirOf localDir repoType repoId revision :: fs0.dirs },
            totOpt := if 0 < sumKnown (env.listing.filter fun f =>
                  matchPatterns f.rfilename allow ignore)
              then some (sumKnown (env.listing.filter fun f =>
                  matchPatterns f.rfilename allow ignore))
              else none,
            completed := 0, transferred := 0, httpCalls := 0, failures := 0 },
         baseDirOf localDir repoType repoId revision,
         (env.listing.filter fun f => matchPatterns f.rfilename allow ignore).length)) := by
  unfold download_repo
  rw [hok, if_pos rfl]

/-! ### C6: give-up after budget exhaustion is non-fatal -/

/-- C6: a file whose three attempts (the default budget) all fail with
non-416 outcomes exhausts its budget and gives up with nothing
written; at the orchestrator level such a file is recorded as a single
failure, the next file is still downloaded, and the run returns the
destination root directory. -/
theorem C6_giveup_nonfatal :
    (∀ (dest : String) (as : List AttemptResult) (st : LoopSt),
        st.retry = 0 → as.length = 3 → (∀ a ∈ as, isPlainFailure a = true) →
        runLoop 3 dest as st =
          ({ st with
               retry := 3,
               run := { st.run with httpCalls := st.run.httpCalls + 3 } }, .gaveUp))
  ∧ (∀ (env : Env) (repoId repoType localDir : String) (revision : Option String)
       (fs0 : FS) (fA fB : FileInfo) (sA : Nat) (cB : List Nat),
        env.repoInfoOk = true →
        env.listing = [fA, fB] →
        fA.rfilename ≠ fB.rfilename →
        fA.size = some sA → 0 < sA →
        fB.size = some cB.length → 0 < cB.length →
        (env.scripts fA.rfilename).attempts.length = 3 →
        (∀ a ∈ (env.scripts fA.rfilename).attempts, isPlainFailure a = true) →
        (env.scripts fB.rfilename).attempts = [.full cB] →
        fs0.files fA.rfilename = none →
        fs0.files fB.rfilename = none →
        ∃ fin : RunState,
          download_repo env repoId repoType localDir revision none none fs0
            = (fin.fs, .ok (fin, baseDirOf localDir repoType repoId revision, 2))
          ∧ fin.fs.files fB.rfilename = some cB
          ∧ fin.fs.files fA.rfilename = none
          ∧ fin.failures = 1) := by
  constructor
  · intro dest as st h0 hlen hfail
    have := runLoop_plainFailures dest as 3 st hfail (by omega)
    rw [this, hlen]
  · intro env repoId repoType localDir revision fs0 fA fB sA cB hok hlist hne hsA hposA
      hsB hposB hlenA hfailA hattB hfA hfB
    have hfilter : List.filter (fun f => matchPatterns f.rfilename none none) [fA, fB]
        = [fA, fB] := by
      simp [List.filter, matchPatterns_trivial]
    have hrepo := download_repo_ok env repoId repoType localDir revision none none fs0 hok
    rw [hlist, hfilter] at hrepo
    simp only [List.length_cons, List.length_nil] at hrepo
    set base := baseDirOf localDir repoType repoId revision with hbase
    set init : RunState :=
      { fs := { fs0 with dirs := base :: fs0.dirs },
        totOpt := if 0 < sumKnown [fA, fB] then some (sumKnown [fA, fB]) else none,
        completed := 0, transferred := 0, httpCalls := 0, failures := 0 } with hinit
    have hstepA : processFile 3 (env.scripts fA.rfilename) fA init =
        { init with
            fs := ensureParent init.fs fA.rfilename,
            httpCalls := init.httpCalls + 3,
            failures := init.failures + 1 } :=
      processFile_fresh_allFail (env.scripts fA.rfilename) fA init sA hsA hposA
        (by simp [hinit, hfA]) hlenA hfailA
    set st1 : RunState :=
      { init with
          fs := ensureParent init.fs fA.rfilename,
          httpCalls := init.httpCalls + 3,
          failures := init.failures + 1 } with hst1
    have hstepB : processFile 3 (env.scripts fB.rfilename) fB st1 =
        { st1 with
            fs := setFile (ensureParent st1.fs fB.rfilename) fB.rfilename cB,
            completed := st1.completed + cB.length,
            transferred := st1.transferred + cB.length,
            httpCalls := st1.httpCalls + 1 } :=
      processFile_fresh_known_pos (env.scripts fB.rfilename) fB st1 cB hsB hposB hattB
        (by simp [hst1, hinit, ensureParent, hfB])
    rw [List.foldl_cons, hstepA, List.foldl_cons, hstepB, List.foldl_nil,
      (rfl : (0 : Nat) + 1 + 1 = 2)] at hrepo
    refine ⟨_, hrepo, ?_, ?_, ?_⟩
    · simp [setFile, Function.update_same]
    · simp only [setFile, files_ensureParent]
      rw [Function.update_noteq hne]
      simp [hst1, hinit, ensureParent, hfA]
    · simp [hst1, hinit]

theorem C6_witness :
    (runLoop 3 "w6" [.otherStatus 500, .transportError, .otherStatus 503]
        ⟨0, none, 0, ⟨⟨[], fun _ => none⟩, none, 0, 0, 0, 0⟩⟩ =
      (⟨0, none, 3, ⟨⟨[], fun _ => none⟩, none, 0, 0, 3, 0⟩⟩, .gaveUp))
    ∧ ∃ fin : RunState,
        download_repo
            ⟨true, [⟨"w6a", some 5⟩, ⟨"w6b", some 1⟩],
             fun p => if p = "w6a"
               then ⟨none, [.otherStatus 500, .transportError, .otherStatus 503]⟩
               else ⟨none, [.full [9]]⟩⟩
            "r6" "model" "d6" none none none ⟨[], fun _ => none⟩
          = (fin.fs, .ok (fin, baseDirOf "d6" "model" "r6" none, 2))
        ∧ fin.fs.files "w6b" = some [9]
        ∧ fin.fs.files "w6a" = none
        ∧ fin.failures = 1 := by
  constructor
  · exact C6_giveup_nonfatal.1 "w6" [.otherStatus 500, .transportError, .otherStatus 503]
      ⟨0, none, 0, ⟨⟨[], fun _ => none⟩, none, 0, 0, 0, 0⟩⟩ rfl rfl (by decide)
  · exact C6_giveup_nonfatal.2
      ⟨true, [⟨"w6a", some 5⟩, ⟨"w6b", some 1⟩],
       fun p => if p = "w6a"
         then ⟨none, [.otherStatus 500, .transportError, .otherStatus 503]⟩
         else ⟨none, [.full [9]]⟩⟩
      "r6" "model" "d6" none ⟨[], fun _ => none⟩ ⟨"w6a", some 5⟩ ⟨"w6b", some 1⟩ 5 [9]
      rfl rfl (by decide) rfl (by decide) (by decide) (by decide) (by decide) (by decide)
      (by decide) rfl rfl

/-! ### C5: aggregate credit and idempotence -/

/-- C5 counterexample: one file with unknown listed size, fully
downloaded by a first run.  On the second run the skip check (source
line 140) cannot fire because the listed size is `None`; the HEAD
probe then resolves the size to the on-disk length, and the range
setup (line 168) treats `exist_bytes == remote_size` as corrupt,
deletes the file and re-downloads its 2 bytes with 2 HTTP calls: the
second run does not transfer zero bytes and the plan is not Skip. -/
theorem C5_counterexample :
    ((download_repo ⟨true, [⟨"q", none⟩], fun _ => ⟨some 2, [.full [7, 7]]⟩⟩ "r5" "model" "d5"
        none none none
        (download_repo ⟨true, [⟨"q", none⟩], fun _ => ⟨some 2, [.full [7, 7]]⟩⟩ "r5" "model"
          "d5" none none none ⟨[], fun _ => none⟩).1).2.toOption.map
      fun x => (x.1.transferred, x.1.httpCalls)) = some (2, 2)
    ∧ (2 : Nat) ≠ 0 := by
  decide

/-- C5 (amended): for a run over files whose sizes are all known in
the listing, starting from a fresh destination, with each transfer
succeeding in one full-body attempt: the final `completedBytes` equals
the sum of the final on-disk sizes of the selected files, and a second
run with no remote changes transfers zero bytes and issues zero HTTP
requests because every file's plan resolves to Skip.  (Files with
unknown listed size break idempotence -- see the counterexample.) -/
theorem C5_idempotent_amended (env : Env) (repoId repoType localDir : String)
    (revision : Option String) (allow ignore : Option (List String)) (fs0 : FS)
    (rc : String → List Nat)
    (hok : env.repoInfoOk = true)
    (hsize : ∀ f ∈ env.listing, f.size = some (rc f.rfilename).length)
    (hatt : ∀ f ∈ env.listing, (env.scripts f.rfilename).attempts = [.full (rc f.rfilename)])
    (hfresh : ∀ f ∈ env.listing, fs0.files f.rfilename = none)
    (hnodup : (env.listing.map FileInfo.rfilename).Nodup) :
    ∃ fin1 fin2 : RunState,
      download_repo env repoId repoType localDir revision allow ignore fs0
        = (fin1.fs, .ok (fin1, baseDirOf localDir repoType repoId revision,
            (env.listing.filter fun f => matchPatterns f.rfilename allow ignore).length))
      ∧ fin1.completed
          = ((env.listing.filter fun f => matchPatterns f.rfilename allow ignore).map
              fun f => onDiskLen fin1.fs f.rfilename).sum
      ∧ download_repo env repoId repoType localDir revision allow ignore fin1.fs
          = (fin2.fs, .ok (fin2, baseDirOf localDir repoType repoId revision,
              (env.listing.filter fun f => matchPatterns f.rfilename allow ignore).length))
      ∧ fin2.transferred = 0
      ∧ fin2.httpCalls = 0
      ∧ fin2.completed = fin1.completed
      ∧ fin2.fs.files = fin1.fs.files := by
  have hrepo1 := download_repo_ok env repoId repoType localDir revision allow ignore fs0 hok
  set selected := env.listing.filter fun f => matchPatterns f.rfilename allow ignore
    with hsel
  have hmem : ∀ f ∈ selected, f ∈ env.listing := by
    intro f hf
    exact (List.mem_filter.mp (hsel ▸ hf)).1
  have hsizeS : ∀ f ∈ selected, f.size = some (rc f.rfilename).length :=
    fun f hf => hsize f (hmem f hf)
  have hattS : ∀ f ∈ selected, (env.scripts f.rfilename).attempts = [.full (rc f.rfilename)] :=
    fun f hf => hatt f (hmem f hf)
  have hnodupS : (selected.map FileInfo.rfilename).Nodup := by
    refine List.Nodup.sublist ?_ hnodup
    exact List.Sublist.map FileInfo.rfilename (List.filter_sublist env.listing)
  set base := baseDirOf localDir repoType repoId revision with hbase
  set init1 : RunState :=
    { fs := { fs0 with dirs := base :: fs0.dirs },
      totOpt := if 0 < sumKnown selected then some (sumKnown selected) else none,
      completed := 0, transferred := 0, httpCalls := 0, failures := 0 } with hinit1
  have hfreshS : ∀ f ∈ selected, init1.fs.files f.rfilename = none :=
    fun f hf => hfresh f (hmem f hf)
  obtain ⟨h1c, h1t, h1to, h1f, h1oth, h1od⟩ :=
    foldl_fresh_known env.scripts rc selected init1 hsizeS hattS hfreshS hnodupS
  set fin1 := selected.foldl (fun st f => processFile 3 (env.scripts f.rfilename) f st) init1
    with hfin1
  have hrepo2 := download_repo_ok env repoId repoType localDir revision allow ignore fin1.fs hok
  set init2 : RunState :=
    { fs := { fin1.fs with dirs := base :: fin1.fs.dirs },
      totOpt := if 0 < sumKnown selected then some (sumKnown selected) else none,
      completed := 0, transferred := 0, httpCalls := 0, failures := 0 } with hinit2
  have hcomp2 : ∀ f ∈ selected, ∃ rs, f.size = some rs ∧ onDiskLen init2.fs f.rfilename = rs := by
    intro f hf
    refine ⟨(rc f.rfilename).length, hsizeS f hf, ?_⟩
    have : onDiskLen init2.fs f.rfilename = onDiskLen fin1.fs f.rfilename := rfl
    rw [this]
    exact h1od f hf
  obtain ⟨h2c, h2t, h2h, h2to, h2f, h2files⟩ :=
    foldl_complete_known env.scripts selected init2 hcomp2
  set fin2 := selected.foldl (fun st f => processFile 3 (env.scripts f.rfilename) f st) init2
    with hfin2
  have hsums : (selected.map fun f => f.size.getD 0).sum
      = (selected.map fun f => (rc f.rfilename).length).sum := by
    have hcong : (selected.map fun f => f.size.getD 0)
        = selected.map fun f => (rc f.rfilename).length := by
      refine List.map_congr_left ?_
      intro f hf
      rw [hsizeS f hf]
      rfl
    rw [hcong]
  have hodsum : ((selected.map fun f => onDiskLen fin1.fs f.rfilename).sum)
      = (selected.map fun f => (rc f.rfilename).length).sum := by
    have hcong : (selected.map fun f => onDiskLen fin1.fs f.rfilename)
        = selected.map fun f => (rc f.rfilename).length := by
      refine List.map_congr_left ?_
      intro f hf
      exact h1od f hf
    rw [hcong]
  refine ⟨fin1, fin2, hrepo1, ?_, hrepo2, ?_, ?_, ?_, ?_⟩
  · rw [h1c, hodsum]
    simp [hinit1]
  · rw [h2t]
  · rw [h2h]
  · rw [h2c, h1c, hsums]
  · rw [h2files]

theorem C5_witness :
    ∃ fin1 fin2 : RunState,
      download_repo
          ⟨true, [⟨"w5a", some 2⟩, ⟨"w5b", some 0⟩],
           fun p => ⟨none, [.full (if p = "w5a" then [3, 4] else [])]⟩⟩
          "r5w" "model" "d5w" none none none ⟨[], fun _ => none⟩
        = (fin1.fs, .ok (fin1, baseDirOf "d5w" "model" "r5w" none,
            (([⟨"w5a", some 2⟩, ⟨"w5b", some 0⟩] : List FileInfo).filter
              fun f => matchPatterns f.rfilename none none).length))
      ∧ fin1.completed
          = ((([⟨"w5a", some 2⟩, ⟨"w5b", some 0⟩] : List FileInfo).filter
              fun f => matchPatterns f.rfilename none none).map
                fun f => onDiskLen fin1.fs f.rfilename).sum
      ∧ download_repo
          ⟨true, [⟨"w5a", some 2⟩, ⟨"w5b", some 0⟩],
           fun p => ⟨none, [.full (if p = "w5a" then [3, 4] else [])]⟩⟩
          "r5w" "model" "d5w" none none none fin1.fs
          = (fin2.fs, .ok (fin2, baseDirOf "d5w" "model" "r5w" none,
              (([⟨"w5a", some 2⟩, ⟨"w5b", some 0⟩] : List FileInfo).filter
                fun f => matchPatterns f.rfilename none none).length))
      ∧ fin2.transferred = 0
      ∧ fin2.httpCalls = 0
      ∧ fin2.completed = fin1.completed
      ∧ fin2.fs.files = fin1.fs.files :=
  C5_idempotent_amended
    ⟨true, [⟨"w5a", some 2⟩, ⟨"w5b", some 0⟩],
     fun p => ⟨none, [.full (if p = "w5a" then [3, 4] else [])]⟩⟩
    "r5w" "model" "d5w" none none none ⟨[], fun _ => none⟩
    (fun p => if p = "w5a" then [3, 4] else [])
    rfl (by decide) (by decide) (by decide) (by decide)

/-! ### Monotonicity of the aggregate progress counters -/

theorem finishLoop_run (maxR : Nat) (dest : String) (sc : FileScript) (st : LoopSt) :
    (finishLoop maxR dest sc st).completed = (runLoop maxR dest sc.attempts st).1.run.completed
    ∧ (finishLoop maxR dest sc st).totOpt = (runLoop maxR dest sc.attempts st).1.run.totOpt := by
  unfold finishLoop
  by_cases h : (runLoop maxR dest sc.attempts st).2 = .succeeded <;> simp [h]

theorem runLoop_mono (maxR : Nat) (dest : String) :
    ∀ (as : List AttemptResult) (st : LoopSt),
      (runLoop maxR dest as st).1.run.totOpt = st.run.totOpt
      ∧ st.run.completed ≤ (runLoop maxR dest as st).1.run.completed := by
  intro as
  induction as with
  | nil =>
    intro st
    by_cases h : maxR ≤ st.retry <;> simp [runLoop, h]
  | cons a rest ih =>
    intro st
    by_cases h : maxR ≤ st.retry
    · simp [runLoop, h]
    · cases a with
      | full bytes =>
        have hstep : runLoop maxR dest (.full bytes :: rest) st
            = (recordWrite dest st bytes, .succeeded) := by
          simp [runLoop, h]
        rw [hstep]
        exact ⟨rfl, Nat.le_add_right _ _⟩
      | interrupted bytes =>
        have hstep : runLoop maxR dest (.interrupted bytes :: rest) st
            = runLoop maxR dest rest
                { (recordWrite dest st bytes) with retry := st.retry + 1 } := by
          simp [runLoop, h]
        rw [hstep]
        have hih := ih { (recordWrite dest st bytes) with retry := st.retry + 1 }
        exact ⟨hih.1, le_trans (Nat.le_add_right _ bytes.length) hih.2⟩
      | notSatisfiable =>
        have hstep : runLoop maxR dest (.notSatisfiable :: rest) st
            = runLoop maxR dest rest
                ⟨0, none, st.retry + 1,
                 { st.run with
                     fs := eraseFile st.run.fs dest,
                     httpCalls := st.run.httpCalls + 1 }⟩ := by
          simp [runLoop, h]
        rw [hstep]
        have hih := ih ⟨0, none, st.retry + 1,
          { st.run with
              fs := eraseFile st.run.fs dest,
              httpCalls := st.run.httpCalls + 1 }⟩
        exact ⟨hih.1, hih.2⟩
      | otherStatus c =>
        have hstep : runLoop maxR dest (.otherStatus c :: rest) st
            = runLoop maxR dest rest
                { st with
                    retry := st.retry + 1,
                    run := { st.run with httpCalls := st.run.httpCalls + 1 } } := by
          simp [runLoop, h]
        rw [hstep]
        have hih := ih { st with
          retry := st.retry + 1,
          run := { st.run with httpCalls := st.run.httpCalls + 1 } }
        exact ⟨hih.1, hih.2⟩
      | transportError =>
        have hstep : runLoop maxR dest (.transportError :: rest) st
            = runLoop maxR dest rest
                { st with
                    retry := st.retry + 1,
                    run := { st.run with httpCalls := st.run.httpCalls + 1 } } := by
          simp [runLoop, h]
        rw [hstep]
        have hih := ih { st with
          retry := st.retry + 1,
          run := { st.run with httpCalls := st.run.httpCalls + 1 } }
        exact ⟨hih.1, hih.2⟩

theorem finishLoop_mono (maxR : Nat) (dest : String) (sc : FileScript) (st : LoopSt) :
    st.run.completed ≤ (finishLoop maxR dest sc st).completed
    ∧ (finishLoop maxR dest sc st).totOpt = st.run.totOpt := by
  obtain ⟨hc, hto⟩ := finishLoop_run maxR dest sc st
  constructor
  · rw [hc]
    exact (runLoop_mono maxR dest sc.attempts st).2
  · rw [hto]
    exact (runLoop_mono maxR dest sc.attempts st).1

theorem processFile_mono (maxR : Nat) (sc : FileScript) (fi : FileInfo) (st : RunState) :
    st.completed ≤ (processFile maxR sc fi st).completed
    ∧ st.totOpt.getD 0 ≤ (processFile maxR sc fi st).totOpt.getD 0
    ∧ (st.totOpt.isSome = true → (processFile maxR sc fi st).totOpt.isSome = true) := by
  rcases hs : fi.size with _ | rs
  · -- unknown listed size: HEAD probe, then the retry loop
    unfold processFile
    simp only [hs]
    rcases hp : sc.probe with _ | n
    · simp only [hp]
      have hm := finishLoop_mono maxR fi.rfilename sc
        ⟨(rangeSetup (onDiskLen (ensureParent st.fs fi.rfilename) fi.rfilename) none
            (ensureParent st.fs fi.rfilename) fi.rfilename).1,
         (rangeSetup (onDiskLen (ensureParent st.fs fi.rfilename) fi.rfilename) none
            (ensureParent st.fs fi.rfilename) fi.rfilename).2.1,
         0,
         { st with
             fs := (rangeSetup (onDiskLen (ensureParent st.fs fi.rfilename) fi.rfilename) none
               (ensureParent st.fs fi.rfilename) fi.rfilename).2.2,
             totOpt := st.totOpt,
             httpCalls := st.httpCalls + 1 }⟩
      refine ⟨hm.1, ?_, ?_⟩
      · rw [hm.2]
      · intro hsome
        rw [hm.2]
        exact hsome
    · simp only [hp]
      have hm := finishLoop_mono maxR fi.rfilename sc
        ⟨(rangeSetup (onDiskLen (ensureParent st.fs fi.rfilename) fi.rfilename) (some n)
            (ensureParent st.fs fi.rfilename) fi.rfilename).1,
         (rangeSetup (onDiskLen (ensureParent st.fs fi.rfilename) fi.rfilename) (some n)
            (ensureParent st.fs fi.rfilename) fi.rfilename).2.1,
         0,
         { st with
             fs := (rangeSetup (onDiskLen (ensureParent st.fs fi.rfilename) fi.rfilename)
               (some n) (ensureParent st.fs fi.rfilename) fi.rfilename).2.2,
             totOpt := some (st.totOpt.getD 0 + n),
             httpCalls := st.httpCalls + 1 }⟩
      refine ⟨hm.1, ?_, ?_⟩
      · rw [hm.2]
        exact Nat.le_add_right _ _
      · intro _
        rw [hm.2]
        rfl
  · unfold processFile
    simp only [hs]
    by_cases he : onDiskLen (ensureParent st.fs fi.rfilename) fi.rfilename = rs
    · simp only [he, if_pos rfl]
      exact ⟨Nat.le_add_right _ _, le_refl _, fun h => h⟩
    · simp only [if_neg he]
      have hm := finishLoop_mono maxR fi.rfilename sc
        ⟨(rangeSetup (onDiskLen (ensureParent st.fs fi.rfilename) fi.rfilename) (some rs)
            (ensureParent st.fs fi.rfilename) fi.rfilename).1,
         (rangeSetup (onDiskLen (ensureParent st.fs fi.rfilename) fi.rfilename) (some rs)
            (ensureParent st.fs fi.rfilename) fi.rfilename).2.1,
         0,
         { st with
             fs := (rangeSetup (onDiskLen (ensureParent st.fs fi.rfilename) fi.rfilename)
               (some rs) (ensureParent st.fs fi.rfilename) fi.rfilename).2.2 }⟩
      refine ⟨hm.1, ?_, ?_⟩
      · rw [hm.2]
      · intro hsome
        rw [hm.2]
        exact hsome

theorem foldl_mono (sc : String → FileScript) :
    ∀ (l : List FileInfo) (st : RunState),
      st.completed ≤ (l.foldl (fun s f => processFile 3 (sc f.rfilename) f s) st).completed
      ∧ st.totOpt.getD 0
          ≤ (l.foldl (fun s f => processFile 3 (sc f.rfilename) f s) st).totOpt.getD 0
      ∧ (st.totOpt.isSome = true →
          (l.foldl (fun s f => processFile 3 (sc f.rfilename) f s) st).totOpt.isSome = true) := by
  intro l
  induction l with
  | nil =>
    intro st
    simp
  | cons f rest ih =>
    intro st
    simp only [List.foldl_cons]
    obtain ⟨m1, m2, m3⟩ := processFile_mono 3 (sc f.rfilename) f st
    obtain ⟨i1, i2, i3⟩ := ih (processFile 3 (sc f.rfilename) f st)
    exact ⟨le_trans m1 i1, le_trans m2 i2, fun h => i3 (m3 h)⟩

theorem sum_map_add (l : List FileInfo) (g h : FileInfo → Nat) :
    (l.map fun f => g f + h f).sum = (l.map g).sum + (l.map h).sum := by
  induction l with
  | nil => simp
  | cons f rest ih =>
    simp only [List.map_cons, List.sum_cons, ih]
    omega

theorem processFile_fresh_probed_step (sc : FileScript) (fi : FileInfo) (st : RunState)
    (c : List Nat) (hsize : fi.size = none) (hprobe : sc.probe = some c.length)
    (hatt : sc.attempts = [.full c]) (hfresh : st.fs.files fi.rfilename = none) :
    (processFile 3 sc fi st).completed = st.completed + c.length
    ∧ (processFile 3 sc fi st).totOpt = some (st.totOpt.getD 0 + c.length)
    ∧ (∀ q, q ≠ fi.rfilename → (processFile 3 sc fi st).fs.files q = st.fs.files q) := by
  rw [processFile_fresh_probed sc fi st c hsize hprobe hatt hfresh]
  refine ⟨rfl, rfl, fun q hq => ?_⟩
  simp [setFile, files_ensureParent, Function.update_noteq hq]

/-- Folding the per-file step over fresh files whose sizes are known
either from the listing or from a successful probe, each downloaded by
a single full-body attempt. -/
theorem foldl_known_or_probed (sc : String → FileScript) (rc : String → List Nat) :
    ∀ (l : List FileInfo) (st : RunState),
      (∀ f ∈ l, f.size = some (rc f.rfilename).length ∨
          (f.size = none ∧ (sc f.rfilename).probe = some (rc f.rfilename).length)) →
      (∀ f ∈ l, (sc f.rfilename).attempts = [.full (rc f.rfilename)]) →
      (∀ f ∈ l, st.fs.files f.rfilename = none) →
      (l.map FileInfo.rfilename).Nodup →
      (l.foldl (fun s f => processFile 3 (sc f.rfilename) f s) st).completed
          = st.completed + (l.map fun f => (rc f.rfilename).length).sum
      ∧ (l.foldl (fun s f => processFile 3 (sc f.rfilename) f s) st).totOpt.getD 0
          = st.totOpt.getD 0
            + (l.map fun f => if f.size.isNone then (rc f.rfilename).length else 0).sum
      ∧ (∀ q, q ∉ l.map FileInfo.rfilename →
          (l.foldl (fun s f => processFile 3 (sc f.rfilename) f s) st).fs.files q
            = st.fs.files q) := by
  intro l
  induction l with
  | nil =>
    intro st _ _ _ _
    simp
  | cons f rest ih =>
    intro st hkp hatt hfresh hnodup
    have hkpf := hkp f (List.mem_cons_self f rest)
    have haf := hatt f (List.mem_cons_self f rest)
    have hff := hfresh f (List.mem_cons_self f rest)
    have hnf : f.rfilename ∉ rest.map FileInfo.rfilename := by
      have h := hnodup
      simp only [List.map_cons, List.nodup_cons] at h
      exact h.1
    have hnodup' : (rest.map FileInfo.rfilename).Nodup := by
      have h := hnodup
      simp only [List.map_cons, List.nodup_cons] at h
      exact h.2
    have hxne : ∀ x ∈ rest, x.rfilename ≠ f.rfilename := by
      intro x hx heq
      exact hnf (heq ▸ List.mem_map_of_mem FileInfo.rfilename hx)
    simp only [List.foldl_cons, List.map_cons, List.sum_cons]
    rcases hkpf with hknown | ⟨hnone, hprobe⟩
    · rcases processFile_fresh_known_step (sc f.rfilename) f st (rc f.rfilename) hknown haf hff
        with ⟨hc1, _, hto1, _, _, hoth1⟩
      have hfresh' : ∀ x ∈ rest,
          (processFile 3 (sc f.rfilename) f st).fs.files x.rfilename = none := by
        intro x hx
        rw [hoth1 x.rfilename (hxne x hx)]
        exact hfresh x (List.mem_cons_of_mem f hx)
      obtain ⟨ih1, ih2, ih3⟩ :=
        ih (processFile 3 (sc f.rfilename) f st)
          (fun x hx => hkp x (List.mem_cons_of_mem f hx))
          (fun x hx => hatt x (List.mem_cons_of_mem f hx)) hfresh' hnodup'
      refine ⟨by rw [ih1, hc1]; omega, ?_, ?_⟩
      · rw [ih2, hto1]
        simp [hknown]
      · intro q hq
        simp only [List.map_cons, List.mem_cons, not_or] at hq
        rw [ih3 q hq.2, hoth1 q hq.1]
    · rcases processFile_fresh_probed_step (sc f.rfilename) f st (rc f.rfilename) hnone hprobe
        haf hff with ⟨hc1, hto1, hoth1⟩
      have hfresh' : ∀ x ∈ rest,
          (processFile 3 (sc f.rfilename) f st).fs.files x.rfilename = none := by
        intro x hx
        rw [hoth1 x.rfilename (hxne x hx)]
        exact hfresh x (List.mem_cons_of_mem f hx)
      obtain ⟨ih1, ih2, ih3⟩ :=
        ih (processFile 3 (sc f.rfilename) f st)
          (fun x hx => hkp x (List.mem_cons_of_mem f hx))
          (fun x hx => hatt x (List.mem_cons_of_mem f hx)) hfresh' hnodup'
      refine ⟨by rw [ih1, hc1]; omega, ?_, ?_⟩
      · rw [ih2, hto1]
        simp [hnone]
        omega
      · intro q hq
        simp only [List.map_cons, List.mem_cons, not_or] at hq
        rw [ih3 q hq.2, hoth1 q hq.1]

/-! ### C8: the aggregate total and completed counters -/

/-- C8 counterexample: two files, one of known size 1 and one of
unknown size whose HEAD probe fails but whose download succeeds with
2 bytes.  The run succeeds (no failures), the final total is known
(`some 1`, from the only known size) yet `completedBytes = 3 > 1`:
on this successful run the known `totalBytes` *is* less than
`completedBytes` at completion, refuting the last conjunct. -/
theorem C8_counterexample :
    ((download_repo
        ⟨true, [⟨"c8a", none⟩, ⟨"c8b", some 1⟩],
         fun p => if p = "c8a" then ⟨none, [.full [9, 9]]⟩ else ⟨none, [.full [4]]⟩⟩
        "r8" "model" "d8" none none none ⟨[], fun _ => none⟩).2.toOption.map
      fun x => (x.1.totOpt, x.1.completed, x.1.failures)) = some (some 1, 3, 0)
    ∧ ¬ ((3 : Nat) ≤ 1) := by
  decide

/-- C8 (amended): (a) per file-step, `completedBytes` never decreases,
the aggregate total (`getD 0`) never decreases, and a known total
stays known; (b) the same for every retry-loop run; (c) the final
total is at least the initial sum of known listed sizes of the
selected files, and is known whenever that sum is positive; (d) on a
successful run over a fresh destination in which every selected file's
size is known from the listing or resolved by its probe and each file
is fetched by one full-body attempt supplying exactly its content, a
known final `totalBytes` is never less than final `completedBytes`.
Without (d)'s conditions the inequality fails (see counterexample). -/
theorem C8_aggregate_totals_amended :
    (∀ (maxR : Nat) (sc : FileScript) (fi : FileInfo) (st : RunState),
        st.completed ≤ (processFile maxR sc fi st).completed
        ∧ st.totOpt.getD 0 ≤ (processFile maxR sc fi st).totOpt.getD 0
        ∧ (st.totOpt.isSome = true → (processFile maxR sc fi st).totOpt.isSome = true))
  ∧ (∀ (maxR : Nat) (dest : String) (as : List AttemptResult) (st : LoopSt),
        st.run.completed ≤ (runLoop maxR dest as st).1.run.completed)
  ∧ (∀ (env : Env) (repoId repoType localDir : String) (revision : Option String)
       (allow ignore : Option (List String)) (fs0 : FS) (fin : RunState)
       (base : String) (n : Nat),
        env.repoInfoOk = true →
        download_repo env repoId repoType localDir revision allow ignore fs0
          = (fin.fs, .ok (fin, base, n)) →
        sumKnown (env.listing.filter fun f => matchPatterns f.rfilename allow ignore)
            ≤ fin.totOpt.getD 0
        ∧ (0 < sumKnown (env.listing.filter fun f => matchPatterns f.rfilename allow ignore) →
            fin.totOpt.isSome = true))
  ∧ (∀ (env : Env) (repoId repoType localDir : String) (revision : Option String)
       (allow ignore : Option (List String)) (fs0 : FS) (rc : String → List Nat)
       (fin : RunState) (base : String) (n : Nat),
        env.repoInfoOk = true →
        (∀ f ∈ env.listing, f.size = some (rc f.rfilename).length ∨
            (f.size = none ∧ (env.scripts f.rfilename).probe = some (rc f.rfilename).length)) →
        (∀ f ∈ env.listing, (env.scripts f.rfilename).attempts = [.full (rc f.rfilename)]) →
        (∀ f ∈ env.listing, fs0.files f.rfilename = none) →
        (env.listing.map FileInfo.rfilename).Nodup →
        download_repo env repoId repoType localDir revision allow ignore fs0
          = (fin.fs, .ok (fin, base, n)) →
        ∀ T : Nat, fin.totOpt = some T → fin.completed ≤ T) := by
  refine ⟨processFile_mono, fun maxR dest as st => (runLoop_mono maxR dest as st).2, ?_, ?_⟩
  · intro env repoId repoType localDir revision allow ignore fs0 fin base n hok heq
    rw [download_repo_ok env repoId repoType localDir revision allow ignore fs0 hok] at heq
    simp only [Prod.mk.injEq, Except.ok.injEq] at heq
    obtain ⟨-, h2, -, -⟩ := heq
    subst h2
    set selected := env.listing.filter fun f => matchPatterns f.rfilename allow ignore
      with hsel
    set init : RunState :=
      { fs := { fs0 with dirs := baseDirOf localDir repoType repoId revision :: fs0.dirs },
        totOpt := if 0 < sumKnown selected then some (sumKnown selected) else none,
        completed := 0, transferred := 0, httpCalls := 0, failures := 0 } with hinit
    obtain ⟨-, m2, m3⟩ := foldl_mono env.scripts selected init
    constructor
    · refine le_trans ?_ m2
      by_cases h : 0 < sumKnown selected
      · simp [hinit, h]
      · have h0 : sumKnown selected = 0 := by omega
        simp [hinit, h, h0]
    · intro hS0
      refine m3 ?_
      simp [hinit, hS0]
  · intro env repoId repoType localDir revision allow ignore fs0 rc fin base n hok hkp hatt
      hfresh hnodup heq T hT
    rw [download_repo_ok env repoId repoType localDir revision allow ignore fs0 hok] at heq
    simp only [Prod.mk.injEq, Except.ok.injEq] at heq
    obtain ⟨-, h2, -, -⟩ := heq
    subst h2
    set selected := env.listing.filter fun f => matchPatterns f.rfilename allow ignore
      with hsel
    have hmem : ∀ f ∈ selected, f ∈ env.listing := by
      intro f hf
      exact (List.mem_filter.mp (hsel ▸ hf)).1
    have hkpS := fun f hf => hkp f (hmem f hf)
    have hattS := fun f hf => hatt f (hmem f hf)
    have hnodupS : (selected.map FileInfo.rfilename).Nodup := by
      refine List.Nodup.sublist ?_ hnodup
      exact List.Sublist.map FileInfo.rfilename (List.filter_sublist env.listing)
    set init : RunState :=
      { fs := { fs0 with dirs := baseDirOf localDir repoType repoId revision :: fs0.dirs },
        totOpt := if 0 < sumKnown selected then some (sumKnown selected) else none,
        completed := 0, transferred := 0, httpCalls := 0, failures := 0 } with hinit
    have hfreshS : ∀ f ∈ selected, init.fs.files f.rfilename = none :=
      fun f hf => hfresh f (hmem f hf)
    obtain ⟨k1, k2, -⟩ :=
      foldl_known_or_probed env.scripts rc selected init hkpS hattS hfreshS hnodupS
    rw [hT] at k2
    have hinitgetD : init.totOpt.getD 0 = sumKnown selected := by
      by_cases h : 0 < sumKnown selected
      · simp [hinit, h]
      · have h0 : sumKnown selected = 0 := by omega
        simp [hinit, h, h0]
    have hS_eq : sumKnown selected
        = (selected.map fun f => if f.size.isNone then 0 else (rc f.rfilename).length).sum := by
      rw [sumKnown_eq]
      refine congrArg List.sum (List.map_congr_left ?_)
      intro f hf
      rcases hkpS f hf with hknown | ⟨hnone, -⟩
      · rw [hknown]
        simp
      · rw [hnone]
        simp
    have hsplit : (selected.map fun f => (rc f.rfilename).length).sum
        = (selected.map fun f => if f.size.isNone then 0 else (rc f.rfilename).length).sum
          + (selected.map fun f => if f.size.isNone then (rc f.rfilename).length else 0).sum := by
      rw [← sum_map_add]
      refine congrArg List.sum (List.map_congr_left ?_)
      intro f hf
      cases hb : f.size.isNone <;> simp [hb]
    have hTval : T = init.totOpt.getD 0
        + (selected.map fun f => if f.size.isNone then (rc f.rfilename).length else 0).sum := by
      simpa using k2
    refine le_of_eq ?_
    rw [k1, hTval, hinitgetD, hS_eq, ← hsplit]
    simp [hinit]

theorem C8_witness :
    ((⟨⟨[], fun _ => none⟩, some 5, 4, 0, 0, 0⟩ : RunState).completed
        ≤ (processFile 3 ⟨none, []⟩ ⟨"w8", some 1⟩
            ⟨⟨[], fun _ => none⟩, some 5, 4, 0, 0, 0⟩).completed
      ∧ ((⟨⟨[], fun _ => none⟩, some 5, 4, 0, 0, 0⟩ : RunState)).totOpt.getD 0
        ≤ (processFile 3 ⟨none, []⟩ ⟨"w8", some 1⟩
            ⟨⟨[], fun _ => none⟩, some 5, 4, 0, 0, 0⟩).totOpt.getD 0)
    ∧ ∃ fin : RunState,
        download_repo
            ⟨true, [⟨"w8a", some 1⟩, ⟨"w8b", none⟩],
             fun p => if p = "w8b" then ⟨some 2, [.full [5, 5]]⟩ else ⟨none, [.full [4]]⟩⟩
            "r8w" "model" "d8w" none none none ⟨[], fun _ => none⟩
          = (fin.fs, .ok (fin, baseDirOf "d8w" "model" "r8w" none, 2))
        ∧ fin.completed ≤ 3 := by
  constructor
  · exact ⟨(C8_aggregate_totals_amended.1 3 ⟨none, []⟩ ⟨"w8", some 1⟩
        ⟨⟨[], fun _ => none⟩, some 5, 4, 0, 0, 0⟩).1,
      (C8_aggregate_totals_amended.1 3 ⟨none, []⟩ ⟨"w8", some 1⟩
        ⟨⟨[], fun _ => none⟩, some 5, 4, 0, 0, 0⟩).2.1⟩
  · have heq := download_repo_ok
      ⟨true, [⟨"w8a", some 1⟩, ⟨"w8b", none⟩],
       fun p => if p = "w8b" then ⟨some 2, [.full [5, 5]]⟩ else ⟨none, [.full [4]]⟩⟩
      "r8w" "model" "d8w" none none none ⟨[], fun _ => none⟩ rfl
    rw [show ((⟨true, [⟨"w8a", some 1⟩, ⟨"w8b", none⟩],
        fun p => if p = "w8b" then ⟨some 2, [.full [5, 5]]⟩ else ⟨none, [.full [4]]⟩⟩
        : Env).listing.filter fun f => matchPatterns f.rfilename none none).length = 2
      from by decide] at heq
    refine ⟨_, heq, ?_⟩
    refine C8_aggregate_totals_amended.2.2.2
      ⟨true, [⟨"w8a", some 1⟩, ⟨"w8b", none⟩],
       fun p => if p = "w8b" then ⟨some 2, [.full [5, 5]]⟩ else ⟨none, [.full [4]]⟩⟩
      "r8w" "model" "d8w" none none none ⟨[], fun _ => none⟩
      (fun p => if p = "w8b" then [5, 5] else [4]) _ _ _
      rfl (by decide) (by decide) (by decide) (by decide) heq 3 (by decide)

end HF
